import Mathlib

/-!
Shallow embedding of medida's quantile snapshot (snapshot.cc) and sliding
window reservoir sampler (sliding_window_sample.cc).

Modelling conventions:
- C++ `double` sample values and weights are modelled as `ℚ` (the claims only
  involve small integer and half-integer arithmetic, on which IEEE doubles are
  exact);
- `Clock::time_point` and `std::chrono` durations are modelled as integer
  microsecond counts (`ℤ`), the resolution the reservoir itself uses
  (`timeSlice_` is `std::chrono::microseconds`);
- the `std::default_random_engine` draw made by each `Update` is passed in as
  an explicit `ℕ` argument; the code draws it from
  `uniform_int_distribution<uint32_t>(0, UINT32_MAX)`, which we reflect by
  reducing the draw modulo 2^32 at the use site;
- `uint32_t sliceCount_` arithmetic is carried out in `ℕ` with an explicit
  `% 4294967296` where the C++ increment can wrap;
- the single `throw std::invalid_argument` in `getValue` is modelled by
  returning `none`.
-/

/-- WeightedValue (declared in snapshot.h): a sample value with a
multiplicity weight, both `double` in the C++. -/
structure WeightedValue where
  value : ℚ
  weight : ℚ
deriving DecidableEq

/-- Snapshot state: the compressed backing store `values_` and
`totalWeight_` of Snapshot::Impl. -/
structure Snapshot where
  values : List WeightedValue
  totalWeight : ℚ
deriving DecidableEq

/-- Modelled from the spec: the ordering used by `std::sort` over
`WeightedValue` is declared in snapshot.h, which is not among the sources
here; the spec says "Sort input values ascending", so entries are ordered by
their `value` field. -/
def wvLE (a b : WeightedValue) : Prop := a.value ≤ b.value

instance : DecidableRel wvLE :=
  fun a b => inferInstanceAs (Decidable (a.value ≤ b.value))

/-- Compression loop of Snapshot::Impl::Impl (snapshot.cc lines 145-157).
`accRev` is the compressed output built so far, in reverse, so its head is
the C++ iterator `last`; `tw` accumulates `totalWeight_`.  The duplicate
branch transcribes `last->value += it->weight;` — the weight is added to the
stored VALUE (and the stored weight is left alone). -/
def snapLoop : List WeightedValue → List WeightedValue → ℚ →
    List WeightedValue × ℚ
  | accRev, [], tw => (accRev.reverse, tw)
  | accRev, x :: rest, tw =>
    match accRev with
    | [] => (accRev.reverse, tw)
    | lastv :: accTail =>
      if x.value = lastv.value then
        snapLoop ({ lastv with value := lastv.value + x.weight } :: accTail)
          rest (tw + x.weight)
      else
        snapLoop (x :: lastv :: accTail) rest (tw + x.weight)

/-- Snapshot::Impl::Impl (snapshot.cc lines 132-158): copy, sort, then run
the compression loop seeded with the front element (`totalWeight_ =
last->weight`).  For empty input the C++ returns early leaving
`totalWeight_` uninitialized and never read (`getValue` tests
`values_.empty()` first, short-circuiting `||`); we use 0 for it. -/
def mkSnapshot (input : List WeightedValue) : Snapshot :=
  match List.insertionSort wvLE input with
  | [] => ⟨[], 0⟩
  | front :: rest =>
    let p := snapLoop [front] rest front.weight
    ⟨p.1, p.2⟩

/-- Snapshot::Impl::size (snapshot.cc lines 164-168). -/
def Snapshot.size (s : Snapshot) : ℕ := s.values.length

/-- Helper for `values_.back().value`, the fall-through return of getValue
(snapshot.cc line 212); 0 for the empty list (never reached there). -/
def lastValueD : List WeightedValue → ℚ
  | [] => 0
  | [x] => x.value
  | _ :: xs => lastValueD xs

/-- Quantile walk of Snapshot::Impl::getValue (snapshot.cc lines 195-211).
Arguments: target cumulative weight `qW`, the back value for the
fall-through return, the remaining entries, the running cumulative weight
`curQ`, and the previous entry's value (`none` while at `values_.begin()`).
The C++ `curQ >= qWeight` test is `qW ≤ curQ + it.weight`; the interpolation
transcribes
`it->value + (qWeight - prevQ) * (cur->value - it->value) / (curQ - prevQ)`
after the `auto cur = it--;` step (so `it` is the previous entry). -/
def gvLoop (qW : ℚ) (lastVal : ℚ) :
    List WeightedValue → ℚ → Option ℚ → ℚ
  | [], _, _ => lastVal
  | it :: rest, curQ, prev =>
    if qW ≤ curQ + it.weight then
      match prev with
      | none => it.value
      | some pv => pv + (qW - curQ) * (it.value - pv) / (curQ + it.weight - curQ)
    else gvLoop qW lastVal rest (curQ + it.weight) (some it.value)

/-- Snapshot::Impl::getValue (snapshot.cc lines 180-213).  `none` models the
`throw std::invalid_argument` for a quantile outside [0,1]; the empty/zero
total weight guard returns 0. -/
def getValue (s : Snapshot) (q : ℚ) : Option ℚ :=
  if q < 0 ∨ 1 < q then none
  else if s.values = [] ∨ s.totalWeight = 0 then some 0
  else some (gvLoop (q * s.totalWeight) (lastValueD s.values) s.values 0 none)

/-- One stored sample of the sliding window reservoir:
`std::pair<double, Clock::time_point>` (value, timestamp in μs). -/
structure SWEntry where
  value : ℚ
  ts : ℤ
deriving DecidableEq

/-- State of SlidingWindowSample::Impl (sliding_window_sample.cc lines
20-40): capacity `windowSize_`, window length `windowTime_` and slice length
`timeSlice_` in microseconds, the `uint32_t sliceCount_`, and the deque
`values_` (head = front, last = back). -/
structure Reservoir where
  windowSize : ℕ
  windowTime : ℤ
  timeSlice : ℤ
  sliceCount : ℕ
  values : List SWEntry
deriving DecidableEq

/-- Timestamp of `values_.back()`; 0 if empty (the C++ only reads the back
of a non-empty deque). -/
def backTs (l : List SWEntry) : ℤ := ((l.getLast?).map SWEntry.ts).getD 0

/-- Value of `values_.back()` as an observation on reservoir states. -/
def backValue (l : List SWEntry) : Option ℚ := (l.getLast?).map SWEntry.value

/-- Trimming loop of Update (sliding_window_sample.cc lines 137-141):
`while (!values_.empty() && values_.front().second < expiryTime)
pop_front();`. -/
def evictOld (expiry : ℤ) : List SWEntry → List SWEntry
  | [] => []
  | e :: rest => if e.ts < expiry then evictOld expiry rest else e :: rest

/-- `values_.back().first = value;` (sliding_window_sample.cc line 158):
replace the value of the last entry, keeping every timestamp. -/
def setLastValue (v : ℚ) : List SWEntry → List SWEntry
  | [] => []
  | [e] => [{ e with value := v }]
  | e :: rest => e :: setLastValue v rest

/-- New-slice reset (sliding_window_sample.cc lines 128-134): if the deque
is non-empty and `timestamp > values_.back().second + timeSlice_`, the
slice counter is reset to 0 before anything else happens. -/
def newSliceCount (st : Reservoir) (t : ℤ) : ℕ :=
  if st.values ≠ [] ∧ backTs st.values + st.timeSlice < t then 0
  else st.sliceCount

/-- SlidingWindowSample::Impl::Update(value, timestamp)
(sliding_window_sample.cc lines 122-170).  Steps, in source order:
new-slice counter reset; trim entries older than `timestamp - windowTime_`
(the C++ guards the trim by `!values_.empty()`, which `evictOld` subsumes);
then either the same-slice branch (`!values_.empty() && timestamp <=
values_.back().second + timeSlice_` on the post-trim deque):
`sliceCount_++; r = size_t(dist_(rng_)) * sliceCount_;` and overwrite the
back value iff `r <= UINT32_MAX`; or the append branch: push (value,
timestamp), set `sliceCount_ = 1`, and pop the front when the capacity
`windowSize_` is exceeded.  `size_t` is 64-bit, so the product of two
uint32-range factors does not wrap in `r`. -/
def update (st : Reservoir) (draw : ℕ) (v : ℚ) (t : ℤ) : Reservoir :=
  let sc0 := newSliceCount st t
  let vs1 := evictOld (t - st.windowTime) st.values
  if vs1 ≠ [] ∧ t ≤ backTs vs1 + st.timeSlice then
    let sc1 := (sc0 + 1) % 4294967296
    if (draw % 4294967296) * sc1 ≤ 4294967295 then
      { st with sliceCount := sc1, values := setLastValue v vs1 }
    else
      { st with sliceCount := sc1, values := vs1 }
  else
    let vs2 := vs1 ++ [⟨v, t⟩]
    let vs3 := if st.windowSize < vs2.length then vs2.tail else vs2
    { st with sliceCount := 1, values := vs3 }

/-- SlidingWindowSample::Impl::Clear (sliding_window_sample.cc lines
102-107): `values_.clear();` under the lock.  `sliceCount_` is not
touched. -/
def clear (st : Reservoir) : Reservoir := { st with values := [] }

/-- SlidingWindowSample::Impl::size (sliding_window_sample.cc lines
109-114). -/
def Reservoir.size (st : Reservoir) : ℕ := st.values.length

/-- SlidingWindowSample::Impl::MakeSnapshot (sliding_window_sample.cc lines
172-183): copy the stored values out under the lock and hand them to the
Snapshot constructor; the reservoir state itself is not modified (in
particular, nothing is trimmed).  We return the copied raw values together
with the (unchanged) reservoir state. -/
def makeSnapshot (st : Reservoir) : List ℚ × Reservoir :=
  (st.values.map SWEntry.value, st)

/-- Constructor SlidingWindowSample::Impl::Impl (sliding_window_sample.cc
lines 84-96): `timeSlice_ = duration_cast<microseconds>(windowTime) /
windowSize` (truncating integer division, which for the non-negative
parameters of interest agrees with `Int` division), `sliceCount_ = 0`, and
`Clear()` leaves the deque empty.  `windowTimeSec` is the
`std::chrono::seconds` argument. -/
def initReservoir (windowSize : ℕ) (windowTimeSec : ℤ) : Reservoir :=
  ⟨windowSize, windowTimeSec * 1000000,
    windowTimeSec * 1000000 / (windowSize : ℤ), 0, []⟩

/-- Fold a sequence of Update calls over a reservoir; each element carries
the random draw consumed by that call, the value, and the timestamp. -/
def runUpdates (inputs : List (ℕ × ℚ × ℤ)) (st : Reservoir) : Reservoir :=
  inputs.foldl (fun s p => update s p.1 p.2.1 p.2.2) st

/-- Timestamps stored in the reservoir are in non-decreasing order (an
invariant of every reachable state; appended entries carry a timestamp
strictly beyond the previous back's slice). -/
def tsSorted (l : List SWEntry) : Prop :=
  List.Pairwise (fun a b => a.ts ≤ b.ts) l

instance : DecidableRel (fun a b : SWEntry => a.ts ≤ b.ts) :=
  fun a b => inferInstanceAs (Decidable (a.ts ≤ b.ts))

instance (l : List SWEntry) : Decidable (tsSorted l) :=
  inferInstanceAs (Decidable (List.Pairwise _ l))

/-- Reservoir state reached from `initReservoir 3 10` by the single call
`Update(1, t = 0)`: one stored entry (value 1, timestamp 0) and
`sliceCount_ = 1`. -/
def C2state : Reservoir := update (initReservoir 3 10) 0 1 0

/-- Modelled from the spec, for refutation only: one same-slice admission
step of the rank-tournament scheme the spec describes — "compare this
value's rank to the previously retained best rank for the slice.  If the
new rank is strictly greater, overwrite the last entry's value ... and
update the best-rank marker.  Otherwise, discard the incoming value."  The
state is (retained best rank, back value); `rank` is an arbitrary hash of
the value (the spec leaves the mixing function open). -/
def claimRankStep (rank : ℚ → ℕ) (s : ℕ × ℚ) (v : ℚ) : ℕ × ℚ :=
  if s.1 < rank v then (rank v, v) else s


/-- Claim C1 (code_bug, evaluation at the failing input): on the input
[(20,1), (20,1)] the constructor merges the two equal values into (21,1) —
`last->value += it->weight` adds the duplicate's weight to the stored VALUE
and leaves the stored weight at 1 — whereas the claim requires the merged
entry (20,2) (value unchanged, weights summed).  `totalWeight` is the sum of
the input weights, as claimed. -/
theorem snapshot_merge_bug_eval :
    (mkSnapshot [⟨20, 1⟩, ⟨20, 1⟩]).values = [⟨21, 1⟩] ∧
    (mkSnapshot [⟨20, 1⟩, ⟨20, 1⟩]).totalWeight = 2 ∧
    (mkSnapshot [⟨20, 1⟩, ⟨20, 1⟩]).values ≠ [⟨20, 2⟩] := by
  refine ⟨?_, ?_, ?_⟩ <;>
    norm_num [mkSnapshot, List.insertionSort, List.orderedInsert, wvLE, snapLoop]

/-- Claim C5 (code_bug, evaluation at the failing input): for the snapshot
built from [10, 20, 20, 30] with unit weights the code compresses to
[(10,1), (21,1), (30,1)] instead of [(10,1), (20,2), (30,1)], so
getValue(0) = 10 and getValue(1) = 30 hold as claimed, but getValue(1/2)
returns 21, which is not strictly between 10 and 20. -/
theorem interpolation_scenario_eval :
    getValue (mkSnapshot [⟨10, 1⟩, ⟨20, 1⟩, ⟨20, 1⟩, ⟨30, 1⟩]) 0 = some 10 ∧
    getValue (mkSnapshot [⟨10, 1⟩, ⟨20, 1⟩, ⟨20, 1⟩, ⟨30, 1⟩]) (1/2) = some 21 ∧
    getValue (mkSnapshot [⟨10, 1⟩, ⟨20, 1⟩, ⟨20, 1⟩, ⟨30, 1⟩]) 1 = some 30 ∧
    ¬ ((21 : ℚ) < 20) := by
  refine ⟨?_, ?_, ?_, ?_⟩ <;>
    norm_num [mkSnapshot, List.insertionSort, List.orderedInsert, wvLE, snapLoop,
      getValue, gvLoop, lastValueD, List.cons_ne_nil]

/-- Claim C6 (code_bug, evaluation at the failing input): the snapshot built
from [20, 20, 20] has the unsorted backing store [(21,1), (20,1)] (a
consequence of the merge writing into the value field), and quantile
monotonicity fails on it: getValue(0) = 21 > getValue(1/2) = 41/2 although
0 ≤ 1/2. -/
theorem quantile_monotonicity_violation :
    ((0 : ℚ) ≤ 1/2) ∧
    getValue (mkSnapshot [⟨20, 1⟩, ⟨20, 1⟩, ⟨20, 1⟩]) 0 = some 21 ∧
    getValue (mkSnapshot [⟨20, 1⟩, ⟨20, 1⟩, ⟨20, 1⟩]) (1/2) = some (41/2) ∧
    ¬ ((21 : ℚ) ≤ 41/2) := by
  refine ⟨by norm_num, ?_, ?_, by norm_num⟩ <;>
    norm_num [mkSnapshot, List.insertionSort, List.orderedInsert, wvLE, snapLoop,
      getValue, gvLoop, lastValueD, List.cons_ne_nil]

/-- Claim C7: getValue fails (modelled by `none`) exactly when the quantile
is outside [0, 1]; for every quantile inside [0, 1] it returns a value.  The
C++ method is `const` and the embedding is a pure function of the snapshot,
so the snapshot is unchanged on the error path. -/
theorem getValue_error_iff (s : Snapshot) (q : ℚ) :
    getValue s q = none ↔ (q < 0 ∨ 1 < q) := by
  unfold getValue
  split
  · exact iff_of_true rfl (by assumption)
  · split
    · exact iff_of_false (by simp) (by assumption)
    · exact iff_of_false (by simp) (by assumption)

/-- Claim C8: the snapshot built from the empty input has size 0 and answers
0 at every quantile in [0, 1], and any snapshot built from inputs whose
accumulated total weight is 0 answers 0 at every quantile in [0, 1]. -/
theorem empty_or_zero_weight_getValue (input : List WeightedValue) (q : ℚ)
    (htw : (mkSnapshot input).totalWeight = 0) (h0 : 0 ≤ q) (h1 : q ≤ 1) :
    getValue (mkSnapshot input) q = some 0 ∧
    Snapshot.size (mkSnapshot []) = 0 ∧
    getValue (mkSnapshot []) q = some 0 := by
  have hq : ¬ (q < 0 ∨ 1 < q) := by
    push_neg
    exact ⟨h0, h1⟩
  refine ⟨?_, rfl, ?_⟩
  · unfold getValue
    rw [if_neg hq, if_pos (Or.inr htw)]
  · unfold getValue
    rw [if_neg hq]
    norm_num [mkSnapshot, List.insertionSort]

/-- Claim C8 witness: instantiation at the zero-weight input [(5, 0)] and
the quantile 1/2. -/
theorem empty_or_zero_weight_getValue_witness :
    (mkSnapshot [⟨5, 0⟩]).totalWeight = 0 ∧ ((0 : ℚ) ≤ 1/2) ∧ ((1/2 : ℚ) ≤ 1) ∧
    (getValue (mkSnapshot [⟨5, 0⟩]) (1/2) = some 0 ∧
     Snapshot.size (mkSnapshot []) = 0 ∧
     getValue (mkSnapshot []) (1/2) = some 0) :=
  ⟨by norm_num [mkSnapshot, List.insertionSort, List.orderedInsert, wvLE, snapLoop],
   by norm_num, by norm_num,
   empty_or_zero_weight_getValue [⟨5, 0⟩] (1/2)
     (by norm_num [mkSnapshot, List.insertionSort, List.orderedInsert, wvLE, snapLoop])
     (by norm_num) (by norm_num)⟩

/-- Claim C9 (counterexample): `C2state` is the reservoir state reached from
a fresh reservoir by the single call Update(1, t = 0); its slice counter is
1.  Clear empties the entries but leaves the slice counter at 1, not at its
initial value 0 — the per-slice randomization state is not reset. -/
theorem clear_keeps_sliceCount_counterexample :
    C2state.sliceCount = 1 ∧ (clear C2state).values = [] ∧
    (clear C2state).sliceCount = 1 ∧ ¬ ((clear C2state).sliceCount = 0) := by
  refine ⟨?_, rfl, ?_, ?_⟩ <;>
    norm_num [C2state, clear, update, initReservoir, newSliceCount, evictOld, backTs]

/-- Claim C9 (amended): after Clear() the entry sequence is empty and every
other field — in particular the slice counter `sliceCount_` — is left
unchanged. -/
theorem clear_spec (st : Reservoir) :
    (clear st).values = [] ∧ (clear st).sliceCount = st.sliceCount ∧
    (clear st).windowSize = st.windowSize ∧
    (clear st).windowTime = st.windowTime ∧
    (clear st).timeSlice = st.timeSlice :=
  ⟨rfl, rfl, rfl, rfl, rfl⟩

/-- Replacing the back value does not change the stored timestamps. -/
theorem setLastValue_map_ts (v : ℚ) (l : List SWEntry) :
    (setLastValue v l).map SWEntry.ts = l.map SWEntry.ts := by
  induction l with
  | nil => rfl
  | cons e rest ih =>
    cases rest with
    | nil => rfl
    | cons f r => simp only [setLastValue, List.map_cons, ih]

/-- Claim C2 (counterexample): the code's same-slice admission is not a
rank tournament on hashed values.  Concretely, starting from `C2state`
(one entry, value 1, back of the current slice) and submitting the value 2
twice within the slice, the code — with random draws 4294967295 then 0 —
first discards (back value stays 1) and then overwrites (back value becomes
2).  Under the claimed scheme the decision is a deterministic comparison of
rank 2 against the retained best rank, and a discard leaves the best rank
unchanged, so no choice of hash `rank` and retained best rank can discard
the first submission of 2 and accept the second: the claimed observation
sequence (back stays 1, then becomes 2) is impossible. -/
theorem update_not_rank_tournament :
    (backValue (update C2state 4294967295 2 1).values = some 1 ∧
     backValue (update (update C2state 4294967295 2 1) 0 2 1).values = some 2) ∧
    ∀ (rank : ℚ → ℕ) (best : ℕ),
      ¬ ((claimRankStep rank (best, 1) 2).2 = 1 ∧
         (claimRankStep rank (claimRankStep rank (best, 1) 2) 2).2 = 2) := by
  constructor
  · constructor <;>
      norm_num [C2state, update, initReservoir, newSliceCount, evictOld, backTs,
        setLastValue, backValue]
  · intro rank best h
    obtain ⟨h1, h2⟩ := h
    by_cases hb : best < rank 2
    · simp only [claimRankStep, if_pos hb] at h1
      norm_num at h1
    · simp only [claimRankStep, if_neg hb] at h2
      norm_num at h2

/-- Claim C2 (amended): whenever an Update(value, t) call finds the
post-trim deque non-empty with t within one timeSlice of the last entry's
timestamp (the same-slice branch), the code increments the 32-bit slice
counter, multiplies a fresh uniform 32-bit random draw by it, and overwrites
the last entry's value — keeping every stored timestamp — exactly when the
product is at most 4294967295; otherwise the incoming value is discarded.
The decision depends only on the draw and the counter, not on the incoming
value or any retained rank. -/
theorem update_same_slice_admission (st : Reservoir) (draw : ℕ) (v : ℚ) (t : ℤ)
    (h1 : evictOld (t - st.windowTime) st.values ≠ [])
    (h2 : t ≤ backTs (evictOld (t - st.windowTime) st.values) + st.timeSlice) :
    (update st draw v t).sliceCount = (newSliceCount st t + 1) % 4294967296 ∧
    (update st draw v t).values.map SWEntry.ts =
      (evictOld (t - st.windowTime) st.values).map SWEntry.ts ∧
    ((draw % 4294967296) * ((newSliceCount st t + 1) % 4294967296) ≤ 4294967295 →
      (update st draw v t).values =
        setLastValue v (evictOld (t - st.windowTime) st.values)) ∧
    (4294967295 < (draw % 4294967296) * ((newSliceCount st t + 1) % 4294967296) →
      (update st draw v t).values = evictOld (t - st.windowTime) st.values) := by
  simp only [update]
  rw [if_pos ⟨h1, h2⟩]
  by_cases hr : (draw % 4294967296) * ((newSliceCount st t + 1) % 4294967296) ≤ 4294967295
  · rw [if_pos hr]
    exact ⟨rfl, setLastValue_map_ts v _, fun _ => rfl,
      fun hc => absurd hr (not_le.mpr hc)⟩
  · rw [if_neg hr]
    exact ⟨rfl, rfl, fun hc => absurd hc hr, fun hc => rfl⟩

/-- Claim C2 witness: the amended theorem instantiated at the reachable
state `C2state`, draw 0, value 5, timestamp 1. -/
theorem update_same_slice_admission_witness :
    (evictOld ((1:ℤ) - C2state.windowTime) C2state.values ≠ [] ∧
     (1:ℤ) ≤ backTs (evictOld ((1:ℤ) - C2state.windowTime) C2state.values) +
       C2state.timeSlice) ∧
    ((update C2state 0 5 1).sliceCount = (newSliceCount C2state 1 + 1) % 4294967296 ∧
     (update C2state 0 5 1).values.map SWEntry.ts =
       (evictOld ((1:ℤ) - C2state.windowTime) C2state.values).map SWEntry.ts ∧
     ((0 % 4294967296) * ((newSliceCount C2state 1 + 1) % 4294967296) ≤ 4294967295 →
       (update C2state 0 5 1).values =
         setLastValue 5 (evictOld ((1:ℤ) - C2state.windowTime) C2state.values)) ∧
     (4294967295 < (0 % 4294967296) * ((newSliceCount C2state 1 + 1) % 4294967296) →
       (update C2state 0 5 1).values =
         evictOld ((1:ℤ) - C2state.windowTime) C2state.values)) :=
  ⟨⟨by norm_num [C2state, update, initReservoir, newSliceCount, evictOld, backTs,
      setLastValue],
    by norm_num [C2state, update, initReservoir, newSliceCount, evictOld, backTs,
      setLastValue]⟩,
   update_same_slice_admission C2state 0 5 1
     (by norm_num [C2state, update, initReservoir, newSliceCount, evictOld, backTs,
        setLastValue])
     (by norm_num [C2state, update, initReservoir, newSliceCount, evictOld, backTs,
        setLastValue])⟩

theorem evictOld_suffix (expiry : ℤ) (l : List SWEntry) :
    evictOld expiry l <:+ l := by
  induction l with
  | nil => exact List.suffix_refl _
  | cons e rest ih =>
    simp only [evictOld]
    split
    · exact ih.trans (List.suffix_cons e rest)
    · exact List.suffix_refl _

theorem mem_evictOld_ts (expiry : ℤ) (l : List SWEntry) (hs : tsSorted l) :
    ∀ e ∈ evictOld expiry l, expiry ≤ e.ts := by
  induction l with
  | nil => intro e he; simp [evictOld] at he
  | cons a rest ih =>
    rw [tsSorted, List.pairwise_cons] at hs
    obtain ⟨hall, hrest⟩ := hs
    intro e he
    simp only [evictOld] at he
    by_cases ha : a.ts < expiry
    · rw [if_pos ha] at he
      exact ih hrest e he
    · rw [if_neg ha] at he
      rcases List.mem_cons.mp he with rfl | he
      · exact le_of_not_lt ha
      · exact le_trans (le_of_not_lt ha) (hall e he)

theorem tsSorted_evictOld (expiry : ℤ) (l : List SWEntry) (hs : tsSorted l) :
    tsSorted (evictOld expiry l) :=
  List.Pairwise.sublist (evictOld_suffix expiry l).sublist hs

theorem backTs_cons_cons (a b : SWEntry) (r : List SWEntry) :
    backTs (a :: b :: r) = backTs (b :: r) := by
  simp [backTs, List.getLast?_cons_cons]

theorem mem_ts_le_backTs (l : List SWEntry) (hs : tsSorted l) :
    ∀ e ∈ l, e.ts ≤ backTs l := by
  induction l with
  | nil => intro e he; cases he
  | cons a rest ih =>
    rw [tsSorted, List.pairwise_cons] at hs
    obtain ⟨hall, hrest⟩ := hs
    intro e he
    rcases List.mem_cons.mp he with rfl | he
    · cases rest with
      | nil => simp [backTs]
      | cons b r =>
        rw [backTs_cons_cons]
        exact le_trans (hall b (List.mem_cons_self b r))
          (ih hrest b (List.mem_cons_self b r))
    · cases rest with
      | nil => cases he
      | cons b r =>
        rw [backTs_cons_cons]
        exact ih hrest e he

theorem tsSorted_setLastValue (v : ℚ) (l : List SWEntry) (hs : tsSorted l) :
    tsSorted (setLastValue v l) := by
  rw [tsSorted, ← List.pairwise_map (f := SWEntry.ts), setLastValue_map_ts,
    List.pairwise_map]
  exact hs

/-- Timestamps are non-decreasing in every reachable reservoir state: the
invariant is preserved by Update (given the non-negative timeSlice the
constructor produces), holds for the empty deque, and Clear re-establishes
it. -/
theorem tsSorted_update (st : Reservoir) (d : ℕ) (v : ℚ) (t : ℤ)
    (hs : tsSorted st.values) (hslice : 0 ≤ st.timeSlice) :
    tsSorted (update st d v t).values := by
  have hvs1 : tsSorted (evictOld (t - st.windowTime) st.values) :=
    tsSorted_evictOld _ _ hs
  simp only [update]
  split
  next hb =>
    split
    · exact tsSorted_setLastValue v _ hvs1
    · exact hvs1
  next hb =>
    have hall : ∀ e ∈ evictOld (t - st.windowTime) st.values, e.ts ≤ t := by
      intro e he
      rcases not_and_or.mp hb with hnil | hlt
      · rw [not_not] at hnil
        rw [hnil] at he
        cases he
      · push_neg at hlt
        have h1 := mem_ts_le_backTs _ hvs1 e he
        omega
    have happ : tsSorted (evictOld (t - st.windowTime) st.values ++ [⟨v, t⟩]) := by
      rw [tsSorted, List.pairwise_append]
      refine ⟨hvs1, List.pairwise_singleton _ _, ?_⟩
      intro a ha b hbmem
      rw [List.mem_singleton] at hbmem
      subst hbmem
      exact hall a ha
    split
    · exact List.Pairwise.sublist (List.tail_sublist _) happ
    · exact happ

/-- Claim C3 (counterexample): MakeSnapshot performs no eviction.  From a
fresh reservoir (windowSize 3, windowTime 10 s) a single Update(1, t = 0)
stores the entry (1, 0); calling MakeSnapshot at wall time t = 20 s
(timestamp 20000000 μs) leaves that entry in place although its timestamp 0
is strictly older than t - windowTime = 10000000 μs. -/
theorem makeSnapshot_no_eviction_counterexample :
    (makeSnapshot (update (initReservoir 3 10) 0 1 0)).2.values = [⟨1, 0⟩] ∧
    ¬ (∀ e ∈ (makeSnapshot (update (initReservoir 3 10) 0 1 0)).2.values,
        (20000000 : ℤ) - (initReservoir 3 10).windowTime ≤ e.ts) := by
  constructor
  · norm_num [makeSnapshot, update, initReservoir, newSliceCount, evictOld, backTs]
  · intro hall
    have h1 := hall ⟨1, 0⟩
      (by norm_num [makeSnapshot, update, initReservoir, newSliceCount, evictOld,
        backTs])
    norm_num [initReservoir] at h1

/-- Claim C3 (amended): after any Update(value, t) on a reservoir whose
stored timestamps are non-decreasing (an invariant of reachable states, see
tsSorted_update) and whose windowTime is non-negative, no stored entry has a
timestamp strictly older than t - windowTime.  MakeSnapshot does not evict:
it leaves the reservoir state unchanged. -/
theorem update_window_bound (st : Reservoir) (d : ℕ) (v : ℚ) (t : ℤ)
    (hs : tsSorted st.values) (hW : 0 ≤ st.windowTime) :
    (∀ e ∈ (update st d v t).values, t - st.windowTime ≤ e.ts) ∧
    (makeSnapshot st).2 = st := by
  refine ⟨?_, rfl⟩
  intro e he
  simp only [update] at he
  split at he
  next hb =>
    split at he
    · have h1 : e.ts ∈ (setLastValue v
          (evictOld (t - st.windowTime) st.values)).map SWEntry.ts :=
        List.mem_map_of_mem _ he
      rw [setLastValue_map_ts] at h1
      obtain ⟨e', he', hts⟩ := List.mem_map.mp h1
      rw [← hts]
      exact mem_evictOld_ts _ _ hs e' he'
    · exact mem_evictOld_ts _ _ hs e he
  next hb =>
    split at he
    · have h1 := (List.tail_sublist _).subset he
      rcases List.mem_append.mp h1 with h2 | h2
      · exact mem_evictOld_ts _ _ hs e h2
      · rw [List.mem_singleton] at h2
        subst h2
        show t - st.windowTime ≤ t
        omega
    · rcases List.mem_append.mp he with h2 | h2
      · exact mem_evictOld_ts _ _ hs e h2
      · rw [List.mem_singleton] at h2
        subst h2
        show t - st.windowTime ≤ t
        omega

/-- Claim C3 witness: the amended theorem instantiated at the fresh
reservoir (windowSize 3, windowTime 10 s) with Update(1, t = 0). -/
theorem update_window_bound_witness :
    tsSorted (initReservoir 3 10).values ∧
    ((0:ℤ) ≤ (initReservoir 3 10).windowTime) ∧
    ((∀ e ∈ (update (initReservoir 3 10) 0 1 0).values,
        (0:ℤ) - (initReservoir 3 10).windowTime ≤ e.ts) ∧
     (makeSnapshot (initReservoir 3 10)).2 = initReservoir 3 10) :=
  ⟨by simp [initReservoir, tsSorted],
   by norm_num [initReservoir],
   update_window_bound (initReservoir 3 10) 0 1 0
     (by simp [initReservoir, tsSorted]) (by norm_num [initReservoir])⟩

theorem setLastValue_length (v : ℚ) (l : List SWEntry) :
    (setLastValue v l).length = l.length := by
  rw [← List.length_map (setLastValue v l) SWEntry.ts, setLastValue_map_ts,
    List.length_map]

theorem evictOld_length_le (expiry : ℤ) (l : List SWEntry) :
    (evictOld expiry l).length ≤ l.length :=
  (evictOld_suffix expiry l).sublist.length_le

theorem update_windowSize (st : Reservoir) (d : ℕ) (v : ℚ) (t : ℤ) :
    (update st d v t).windowSize = st.windowSize := by
  simp only [update]
  split
  · split <;> rfl
  · rfl

theorem update_length_le (st : Reservoir) (d : ℕ) (v : ℚ) (t : ℤ)
    (h : st.values.length ≤ st.windowSize) :
    (update st d v t).values.length ≤ st.windowSize := by
  have hev := evictOld_length_le (t - st.windowTime) st.values
  have hsl := setLastValue_length v (evictOld (t - st.windowTime) st.values)
  have hap : (evictOld (t - st.windowTime) st.values ++ [(⟨v, t⟩ : SWEntry)]).length
      = (evictOld (t - st.windowTime) st.values).length + 1 := by simp
  have htl : (evictOld (t - st.windowTime) st.values ++ [(⟨v, t⟩ : SWEntry)]).tail.length
      = (evictOld (t - st.windowTime) st.values ++ [(⟨v, t⟩ : SWEntry)]).length - 1 :=
    List.length_tail _
  simp only [update]
  split
  · split <;> dsimp only <;> omega
  · split <;> dsimp only <;> omega

theorem runUpdates_windowSize (inputs : List (ℕ × ℚ × ℤ)) :
    ∀ st : Reservoir, (runUpdates inputs st).windowSize = st.windowSize := by
  induction inputs with
  | nil => intro st; rfl
  | cons p rest ih =>
    intro st
    simp only [runUpdates, List.foldl_cons] at ih ⊢
    rw [ih (update st p.1 p.2.1 p.2.2), update_windowSize]

theorem runUpdates_length_le (inputs : List (ℕ × ℚ × ℤ)) :
    ∀ st : Reservoir, st.values.length ≤ st.windowSize →
      (runUpdates inputs st).values.length ≤ st.windowSize := by
  induction inputs with
  | nil => intro st h; exact h
  | cons p rest ih =>
    intro st h
    simp only [runUpdates, List.foldl_cons] at ih ⊢
    have h1 := update_length_le st p.1 p.2.1 p.2.2 h
    have h2 := ih (update st p.1 p.2.1 p.2.2)
      (by rw [update_windowSize]; exact h1)
    rw [update_windowSize] at h2
    exact h2

/-- Claim C4: for every sequence of Update calls on a reservoir constructed
with capacity windowSize, the entry count reported by size() never exceeds
windowSize. -/
theorem capacity_bound (wS : ℕ) (wT : ℤ) (inputs : List (ℕ × ℚ × ℤ)) :
    Reservoir.size (runUpdates inputs (initReservoir wS wT)) ≤ wS := by
  have h := runUpdates_length_le inputs (initReservoir wS wT)
    (by simp [initReservoir])
  simpa [Reservoir.size, initReservoir] using h

theorem setLastValue_ne_nil (v : ℚ) (l : List SWEntry) (h : l ≠ []) :
    setLastValue v l ≠ [] := by
  cases l with
  | nil => exact absurd rfl h
  | cons e rest =>
    cases rest with
    | nil => simp [setLastValue]
    | cons f r => simp [setLastValue]

/-- Claim C10: provided the construction precondition windowSize ≥ 1 holds,
every Update leaves the reservoir non-empty; and when the same-slice branch
is taken (post-trim deque non-empty, timestamp within one timeSlice of its
back), the branch changes neither the entry count nor any stored timestamp:
the deque is either the post-trim deque with its last value overwritten, or
the post-trim deque unchanged. -/
theorem update_nonempty_and_slice_effect (st : Reservoir) (d : ℕ) (v : ℚ) (t : ℤ)
    (hW : 1 ≤ st.windowSize) :
    (update st d v t).values ≠ [] ∧
    ((evictOld (t - st.windowTime) st.values ≠ [] ∧
      t ≤ backTs (evictOld (t - st.windowTime) st.values) + st.timeSlice) →
      ((update st d v t).values.map SWEntry.ts =
        (evictOld (t - st.windowTime) st.values).map SWEntry.ts ∧
       ((update st d v t).values =
          setLastValue v (evictOld (t - st.windowTime) st.values) ∨
        (update st d v t).values = evictOld (t - st.windowTime) st.values))) := by
  constructor
  · simp only [update]
    split
    next hb =>
      split
      · exact setLastValue_ne_nil v _ hb.1
      · exact hb.1
    next hb =>
      split
      next hlen =>
        rw [← List.length_pos, List.length_tail]
        simp only [List.length_append, List.length_singleton] at hlen ⊢
        omega
      · simp
  · intro hb
    simp only [update]
    rw [if_pos hb]
    split
    · exact ⟨setLastValue_map_ts v _, Or.inl rfl⟩
    · exact ⟨rfl, Or.inr rfl⟩

/-- Claim C10 witness: instantiation at a fresh reservoir with windowSize 1
and the call Update(5, t = 0). -/
theorem update_nonempty_and_slice_effect_witness :
    1 ≤ (initReservoir 1 10).windowSize ∧
    ((update (initReservoir 1 10) 0 5 0).values ≠ [] ∧
     ((evictOld ((0:ℤ) - (initReservoir 1 10).windowTime)
         (initReservoir 1 10).values ≠ [] ∧
       (0:ℤ) ≤ backTs (evictOld ((0:ℤ) - (initReservoir 1 10).windowTime)
         (initReservoir 1 10).values) + (initReservoir 1 10).timeSlice) →
       ((update (initReservoir 1 10) 0 5 0).values.map SWEntry.ts =
         (evictOld ((0:ℤ) - (initReservoir 1 10).windowTime)
           (initReservoir 1 10).values).map SWEntry.ts ∧
        ((update (initReservoir 1 10) 0 5 0).values =
           setLastValue 5 (evictOld ((0:ℤ) - (initReservoir 1 10).windowTime)
             (initReservoir 1 10).values) ∨
         (update (initReservoir 1 10) 0 5 0).values =
           evictOld ((0:ℤ) - (initReservoir 1 10).windowTime)
             (initReservoir 1 10).values)))) :=
  ⟨by norm_num [initReservoir],
   update_nonempty_and_slice_effect (initReservoir 1 10) 0 5 0
     (by norm_num [initReservoir])⟩
